import Mathlib

/-!
# Verification of the snapmaker-cnc-finisher optimization core

Shallow embedding of the Go sources of `chrisns/snapmaker-cnc-finisher`.
Floating-point (`float64`) values are modelled as exact rationals (`ℚ`):
every claim under examination concerns exact comparisons, exact assignment
of the threshold coordinate, and linear interpolation identities, none of
which depend on rounding of the arithmetic itself.

The repository contains two generations of the optimizer:
* the `internal/optimizer` + `internal/parser` generation
  (`Optimizer`, `ClassifyMove`, `CalculateIntersection`, `ShouldPreserve`,
  `SplitMove`, `ModalState`, `ScanMinZ`, and the pipeline in
  `optimizeGCodeFile` of `cmd/gcode-optimizer/main.go`);
* the `internal/gcode` + strategy-filter generation
  (`Command`, `Metadata`, `FilterStrategy`, `ShouldFilterMove`,
  `applyStrategy`, `ParseFilterStrategy`).
Both are embedded below, each from its own source file.
-/

/-- `MoveClassification` from `internal/optimizer/optimizer.go`. -/
inductive MoveClassification where
  | Shallow
  | Deep
  | CrossingEnter
  | CrossingLeave
  | NonCutting
deriving DecidableEq, Repr

export MoveClassification (Shallow Deep CrossingEnter CrossingLeave NonCutting)

/-- `OptimizationStrategy` from `internal/optimizer/optimizer.go`. -/
inductive OptimizationStrategy where
  | Conservative
  | Aggressive
deriving DecidableEq, Repr

export OptimizationStrategy (Conservative Aggressive)

/-- `IntersectionPoint` from `internal/optimizer/optimizer.go`. -/
structure IntersectionPoint where
  X : ℚ
  Y : ℚ
  Z : ℚ
  T : ℚ
deriving DecidableEq, Repr

/-- `Optimizer` from `internal/optimizer/optimizer.go`. -/
structure Optimizer where
  threshold : ℚ
  strategy : OptimizationStrategy
deriving DecidableEq, Repr

/-- `NewOptimizer` from `internal/optimizer/optimizer.go`:
`threshold = minZ + allowance`. -/
def NewOptimizer (minZ allowance : ℚ) (strategy : OptimizationStrategy) : Optimizer :=
  { threshold := minZ + allowance, strategy := strategy }

/-- `Optimizer.ClassifyMove`: categorizes a move based on start/end Z
relative to the threshold (`startDeep := startZ <= threshold`,
`endDeep := endZ <= threshold`). -/
def ClassifyMove (o : Optimizer) (startZ endZ : ℚ) : MoveClassification :=
  let startDeep := decide (startZ ≤ o.threshold)
  let endDeep := decide (endZ ≤ o.threshold)
  if !startDeep && !endDeep then Shallow
  else if startDeep && endDeep then Deep
  else if !startDeep && endDeep then CrossingEnter
  else CrossingLeave

/-- The tolerance `1e-9` used by `CalculateIntersection`. -/
def intersectionTolerance : ℚ := 1 / 1000000000

/-- `Optimizer.CalculateIntersection`: parametric interpolation of the
threshold crossing.  Returns `none` where the Go code returns a non-nil
error (`deltaZ ≈ 0`, or `t <= 0 || t >= 1`). -/
def CalculateIntersection (o : Optimizer)
    (startX startY startZ endX endY endZ : ℚ) : Option IntersectionPoint :=
  let deltaZ := endZ - startZ
  if |deltaZ| < intersectionTolerance then none
  else
    let t := (o.threshold - startZ) / deltaZ
    if t ≤ 0 ∨ t ≥ 1 then none
    else some { X := startX + t * (endX - startX)
                Y := startY + t * (endY - startY)
                Z := o.threshold
                T := t }

/-- `Optimizer.ShouldPreserve`: whether a line is kept as-is given its
classification and the optimizer strategy. -/
def ShouldPreserve (o : Optimizer) (classification : MoveClassification) : Bool :=
  match classification with
  | Shallow => false
  | Deep => true
  | NonCutting => true
  | CrossingEnter => decide (o.strategy = Conservative)
  | CrossingLeave => decide (o.strategy = Conservative)

/-- `gcode.GCode` (256dpi/gcode): one letter/value code on a line. -/
structure GCode where
  letter : String
  value : ℚ
deriving DecidableEq, Repr

/-- `gcode.Line` (256dpi/gcode): the codes of one line plus its comment. -/
structure Line where
  codes : List GCode
  comment : String
deriving DecidableEq, Repr

/-- `parser.ModalState` from `internal/parser`: modal X/Y/Z/B/F values. -/
structure ModalState where
  X : ℚ
  Y : ℚ
  Z : ℚ
  B : ℚ
  F : ℚ
deriving DecidableEq, Repr

/-- `Parser.ResetState`: Z is initialized from header `max_z`
(0 when absent), X/Y/B/F default to 0. -/
def ResetState (maxZ : ℚ) : ModalState :=
  { X := 0, Y := 0, Z := maxZ, B := 0, F := 0 }

/-- The body of the `Parser.UpdateState` loop: one code of the line. -/
def updateStateStep (s : ModalState) (c : GCode) : ModalState :=
  if c.letter = "X" then { s with X := c.value }
  else if c.letter = "Y" then { s with Y := c.value }
  else if c.letter = "Z" then { s with Z := c.value }
  else if c.letter = "B" then { s with B := c.value }
  else if c.letter = "F" then { s with F := c.value }
  else s

/-- `Parser.UpdateState`: only coordinates/parameters present in the line
update their values. -/
def UpdateState (st : ModalState) (line : Line) : ModalState :=
  line.codes.foldl updateStateStep st

/-- The `isMove` check of `Parser.ScanMinZ`: the line carries a `G` code
with value 0 or 1. -/
def isMove (line : Line) : Bool :=
  line.codes.any (fun c => decide (c.letter = "G") && (decide (c.value = 0) || decide (c.value = 1)))

/-- The `isG1` check of the `optimizeGCodeFile` loop: the line carries a
`G` code with value 1. -/
def isG1 (line : Line) : Bool :=
  line.codes.any (fun c => decide (c.letter = "G") && decide (c.value = 1))

/-- The scanning loop of `Parser.ScanMinZ`: update modal state first, then
record the state's Z for every G0/G1 line, tracking the minimum seen
(`none` = `found == false`). -/
def scanMinZAux (st : ModalState) (acc : Option ℚ) : List Line → Option ℚ
  | [] => acc
  | l :: ls =>
    let st1 := UpdateState st l
    let acc1 :=
      if isMove l then
        match acc with
        | none => some st1.Z
        | some m => some (if st1.Z < m then st1.Z else m)
      else acc
    scanMinZAux st1 acc1 ls

/-- `Parser.ScanMinZ`: minimum modal Z over all G0/G1 lines, starting from
the reset state; `none` where the Go code returns the
"no G0/G1 moves found in file" error. -/
def ScanMinZ (maxZ : ℚ) (lines : List Line) : Option ℚ :=
  scanMinZAux (ResetState maxZ) none lines

/-- The modal depths recorded by the `ScanMinZ` scan, in stream order:
after each state update, the state's Z for every G0/G1 line. -/
def observedDepths (st : ModalState) : List Line → List ℚ
  | [] => []
  | l :: ls =>
    let st1 := UpdateState st l
    (if isMove l then [st1.Z] else []) ++ observedDepths st1 ls

/-- The counters of the `optimizeGCodeFile` loop plus the retained lines. -/
structure RunResult where
  output : List Line
  processed : ℕ
  removed : ℕ
  preserved : ℕ
  splits : ℕ
deriving DecidableEq, Repr

/-- The per-line loop of `optimizeGCodeFile` in
`cmd/gcode-optimizer/main.go`: track start Z, update modal state, preserve
every non-G1 line as-is, classify G1 moves and keep them exactly when
`ShouldPreserve` says so.  `linesSplit` is never incremented by the loop. -/
def processLines (opt : Optimizer) (st : ModalState) : List Line → RunResult
  | [] => { output := [], processed := 0, removed := 0, preserved := 0, splits := 0 }
  | l :: ls =>
    let startZ := st.Z
    let st1 := UpdateState st l
    let rest := processLines opt st1 ls
    if isG1 l then
      let endZ := st1.Z
      let classification := ClassifyMove opt startZ endZ
      if ShouldPreserve opt classification then
        { rest with output := l :: rest.output
                    processed := rest.processed + 1
                    preserved := rest.preserved + 1 }
      else
        { rest with processed := rest.processed + 1
                    removed := rest.removed + 1 }
    else
      { rest with output := l :: rest.output
                  processed := rest.processed + 1
                  preserved := rest.preserved + 1 }

/-- `optimizeGCodeFile` (core transformation): pass 1 scans the minimum Z
(an error aborts the run), the optimizer is built with
`threshold = minZ + allowance`, modal state is reset, and pass 2 runs the
per-line loop. -/
def optimizeGCodeFile (maxZ allowance : ℚ) (strategy : OptimizationStrategy)
    (lines : List Line) : Option (Optimizer × RunResult) :=
  match ScanMinZ maxZ lines with
  | none => none
  | some minZ =>
    let opt := NewOptimizer minZ allowance strategy
    some (opt, processLines opt (ResetState maxZ) lines)

/-- Go `math.Round`: round half away from zero. -/
def goRound (x : ℚ) : ℚ :=
  if x < 0 then -(((-x + 1 / 2 : ℚ).floor : ℤ) : ℚ)
  else (((x + 1 / 2 : ℚ).floor : ℤ) : ℚ)

/-- `math.Round(v*10000)/10000`: rounding to four decimal places as done
by `SplitMove`. -/
def round4 (x : ℚ) : ℚ := goRound (x * 10000) / 10000

/-- Whether a line carries a code with the given letter (the `hasX` /
`hasY` / `hasZ` / `hasB` tracking loop of `SplitMove`). -/
def hasLetter (line : Line) (s : String) : Bool :=
  line.codes.any (fun c => decide (c.letter = s))

/-- The value of the last code with the given letter, else the default
(the modal end-coordinate / feed-rate extraction loops of `SplitMove`). -/
def lastCoord (line : Line) (s : String) (dflt : ℚ) : ℚ :=
  line.codes.foldl (fun acc c => if c.letter = s then c.value else acc) dflt

/-- The `gValue` extraction loop of `SplitMove`: the last `G` code with
value 0 or 1, else `-1`. -/
def extractGValue (line : Line) : ℚ :=
  line.codes.foldl
    (fun acc c => if c.letter = "G" ∧ (c.value = 0 ∨ c.value = 1) then c.value else acc)
    (-1)

/-- The empty `gcode.Line` zero value. -/
def emptyLine : Line := { codes := [], comment := "" }

/-- `Optimizer.SplitMove` (4-axis version of `internal/optimizer`): builds
the replacement lines for a crossing move.  Returns `none` where the Go
code returns the "line is not a G0 or G1 move" error.  Both crossing
branches build the first replacement line identically: only codes whose
letters were present in the original line are emitted, coordinates of the
intersection are rounded to four decimals, and an `F` code with the
original feed rate is appended for `G1` moves with positive feed rate. -/
def SplitMove (line : Line) (intersection : IntersectionPoint)
    (classification : MoveClassification) (startX startY startZ startB : ℚ) :
    Option (Line × Line) :=
  let feedRate := lastCoord line "F" 0
  let gValue := extractGValue line
  if gValue ≠ 0 ∧ gValue ≠ 1 then none
  else
    let endX := lastCoord line "X" startX
    let endY := lastCoord line "Y" startY
    let endZ := lastCoord line "Z" startZ
    let endB := lastCoord line "B" startB
    let intersectionB := startB + intersection.T * (endB - startB)
    let fCodes : List GCode :=
      if gValue = 1 ∧ feedRate > 0 then [{ letter := "F", value := feedRate }] else []
    let codes1 : List GCode :=
      [{ letter := "G", value := gValue }]
      ++ (if hasLetter line "X" then [{ letter := "X", value := round4 intersection.X }] else [])
      ++ (if hasLetter line "Y" then [{ letter := "Y", value := round4 intersection.Y }] else [])
      ++ (if hasLetter line "Z" then [{ letter := "Z", value := round4 intersection.Z }] else [])
      ++ (if hasLetter line "B" then [{ letter := "B", value := round4 intersectionB }] else [])
      ++ fCodes
    if classification = CrossingEnter then
      let codes2 : List GCode :=
        [{ letter := "G", value := gValue }]
        ++ (if hasLetter line "X" then [{ letter := "X", value := endX }] else [])
        ++ (if hasLetter line "Y" then [{ letter := "Y", value := endY }] else [])
        ++ (if hasLetter line "Z" then [{ letter := "Z", value := endZ }] else [])
        ++ (if hasLetter line "B" then [{ letter := "B", value := endB }] else [])
        ++ fCodes
      some ({ codes := codes1, comment := "" }, { codes := codes2, comment := "" })
    else if classification = CrossingLeave then
      some ({ codes := codes1, comment := "" }, emptyLine)
    else
      some (emptyLine, emptyLine)

/-- `gcode.Command` from `internal/gcode/command.go`: parsed command
letter/value, parameter mapping and comment.  The Go parameter map (unique
keys) is modelled as an association list read through `List.lookup`. -/
structure Command where
  Letter : String
  Value : ℤ
  Params : List (String × ℚ)
  Comment : String
deriving DecidableEq, Repr

/-- `Command.IsRapidMove`: a `G0` rapid move. -/
def IsRapidMove (c : Command) : Bool :=
  decide (c.Letter = "G") && decide (c.Value = 0)

/-- `Command.IsCuttingMove`: a `G1` with a feed rate or any parameter. -/
def IsCuttingMove (c : Command) : Bool :=
  if c.Letter ≠ "G" ∨ c.Value ≠ 1 then false
  else (c.Params.lookup "F").isSome || decide (c.Params.length > 0)

/-- `Command.IsMachineCode`: an `M`-code. -/
def IsMachineCode (c : Command) : Bool :=
  decide (c.Letter = "M")

/-- `Command.IsComment`: a comment line. -/
def IsComment (c : Command) : Bool :=
  decide (c.Comment ≠ "") && decide (c.Letter = "")

/-- `gcode.ZReference` from `internal/gcode/metadata.go`. -/
inductive ZReference where
  | ZRefMetadata
  | ZRefMachineOrigin
  | ZRefSurface
deriving DecidableEq, Repr

export ZReference (ZRefMetadata ZRefMachineOrigin ZRefSurface)

/-- `gcode.Metadata` from `internal/gcode/metadata.go` (the fields read by
the depth decision). -/
structure Metadata where
  MinZ : ℚ
  MaxZ : ℚ
  Is4Axis : Bool
  ZRef : ZReference
deriving DecidableEq, Repr

/-- `Metadata.GetZReference`: the Z-axis reference point value. -/
def GetZReference (m : Metadata) : ℚ :=
  match m.ZRef with
  | ZRefMetadata => m.MaxZ
  | ZRefMachineOrigin => 0
  | ZRefSurface => 0

/-- `Metadata.IsShallowDepth`: shallow means `z > (reference - allowance)`. -/
def IsShallowDepth (m : Metadata) (z allowance : ℚ) : Bool :=
  decide (z > GetZReference m - allowance)

/-- `optimizer.ShouldFilterByDepth` from `internal/optimizer`. -/
def ShouldFilterByDepth (z allowance : ℚ) (meta : Metadata) : Bool :=
  IsShallowDepth meta z allowance

/-- `optimizer.ShouldAlwaysPreserve`: rapid moves, M-codes, comments and
empty commands are always kept. -/
def ShouldAlwaysPreserve (cmd : Command) : Bool :=
  if IsRapidMove cmd then true
  else if IsMachineCode cmd then true
  else if IsComment cmd then true
  else if cmd.Letter = "" ∧ cmd.Comment = "" then true
  else false

/-- `optimizer.FilterStrategy` from `internal/optimizer`. -/
inductive FilterStrategy where
  | StrategySafe
  | StrategyAllAxes
  | StrategySplit
  | StrategyAggressive
deriving DecidableEq, Repr

export FilterStrategy (StrategySafe StrategyAllAxes StrategySplit StrategyAggressive)

/-- The multi-axis check of `optimizer.applyStrategy`: the command carries
an `X`, `Y`, `A` or `B` parameter in addition to `Z`. -/
def isMultiAxis (cmd : Command) : Bool :=
  cmd.Params.any (fun p => decide (p.1 = "X") || decide (p.1 = "Y") || decide (p.1 = "A") || decide (p.1 = "B"))

/-- `optimizer.applyStrategy`: whether a shallow move is filtered under
the given multi-axis strategy. -/
def applyStrategy (cmd : Command) (strategy : FilterStrategy) : Bool :=
  match strategy with
  | StrategySafe => !isMultiAxis cmd
  | StrategyAllAxes => true
  | StrategySplit => !isMultiAxis cmd
  | StrategyAggressive => true

/-- `optimizer.ShouldFilterMove`: the main filtering decision. -/
def ShouldFilterMove (cmd : Command) (allowance : ℚ) (meta : Metadata)
    (strategy : FilterStrategy) : Bool :=
  if ShouldAlwaysPreserve cmd then false
  else if !IsCuttingMove cmd then false
  else
    match cmd.Params.lookup "Z" with
    | none => false
    | some z =>
      if !ShouldFilterByDepth z allowance meta then false
      else applyStrategy cmd strategy

/-- Go `unicode.IsSpace`: the Unicode White_Space code points. -/
def goIsSpace (c : Char) : Bool :=
  let n := c.toNat
  decide ((9 ≤ n ∧ n ≤ 13) ∨ n = 32 ∨ n = 133 ∨ n = 160 ∨ n = 5760 ∨
    (8192 ≤ n ∧ n ≤ 8202) ∨ n = 8232 ∨ n = 8233 ∨ n = 8239 ∨ n = 8287 ∨ n = 12288)

/-- Go `unicode.ToLower` restricted to ASCII letters (the full Unicode
simple-case table is not embedded; every keyword compared against is
ASCII, and the structural facts used — idempotence and preservation of
whitespace — hold of the full mapping as well). -/
def goToLowerChar (c : Char) : Char :=
  if 65 ≤ c.toNat ∧ c.toNat ≤ 90 then Char.ofNat (c.toNat + 32) else c

/-- Go `strings.ToLower` on a character list. -/
def goToLower (s : List Char) : List Char := s.map goToLowerChar

/-- Go `strings.TrimSpace` on a character list: drop leading and trailing
white space. -/
def goTrimSpace (s : List Char) : List Char :=
  ((s.dropWhile goIsSpace).reverse.dropWhile goIsSpace).reverse

/-- `optimizer.ParseFilterStrategy`: match the lowercased, trimmed input
against the known strategy identifiers; the `Bool` component is `true`
exactly where the Go code returns a non-nil error (paired with
`StrategySafe`). -/
def ParseFilterStrategy (s : List Char) : FilterStrategy × Bool :=
  let n := goToLower (goTrimSpace s)
  if n = "safe".toList then (StrategySafe, false)
  else if n = "all-axes".toList then (StrategyAllAxes, false)
  else if n = "split".toList then (StrategySplit, false)
  else if n = "aggressive".toList then (StrategyAggressive, false)
  else (StrategySafe, true)

/-- C2: classification returns exactly one of the four depth variants —
Shallow iff both depths are strictly above the threshold, Deep iff both
are at/below, CrossingEnter iff the start is above and the end at/below,
CrossingLeave iff the start is at/below and the end above; in particular a
move starting exactly at the threshold and ending below it is Deep, never
a crossing variant. -/
theorem classifyMove_spec (o : Optimizer) (s e : ℚ) :
    (ClassifyMove o s e = Shallow ↔ o.threshold < s ∧ o.threshold < e) ∧
    (ClassifyMove o s e = Deep ↔ s ≤ o.threshold ∧ e ≤ o.threshold) ∧
    (ClassifyMove o s e = CrossingEnter ↔ o.threshold < s ∧ e ≤ o.threshold) ∧
    (ClassifyMove o s e = CrossingLeave ↔ s ≤ o.threshold ∧ o.threshold < e) ∧
    (∀ e2, e2 ≤ o.threshold → ClassifyMove o o.threshold e2 = Deep) := by
  unfold ClassifyMove
  by_cases hs : s ≤ o.threshold <;> by_cases he : e ≤ o.threshold <;>
    simp [hs, he, not_le.mp, le_refl] <;>
    constructor <;> intro h <;> first | exact absurd h (by simp_all) | simp_all | omega

/-- Witness: at threshold `-9`, a move from depth exactly `-9` to `-10`
classifies as Deep. -/
theorem classifyMove_spec_witness :
    ClassifyMove { threshold := -9, strategy := Conservative } (-9) (-10) = Deep :=
  (classifyMove_spec { threshold := -9, strategy := Conservative } 0 0).2.2.2.2
    (-10) (by norm_num)

/-- C3: the intersection calculator errors exactly when the absolute depth
delta is below the `1e-9` tolerance or `t = (threshold - startZ)/(endZ - startZ)`
is not strictly between 0 and 1; on success the point's depth is assigned
the threshold exactly, X and Y are linearly interpolated with `t`, and `t`
lies strictly within `(0, 1)`. -/
theorem calculateIntersection_spec (o : Optimizer) (sx sy sz ex ey ez : ℚ) :
    (CalculateIntersection o sx sy sz ex ey ez = none ↔
      |ez - sz| < intersectionTolerance ∨
        ¬(0 < (o.threshold - sz) / (ez - sz) ∧ (o.threshold - sz) / (ez - sz) < 1)) ∧
    (∀ p, CalculateIntersection o sx sy sz ex ey ez = some p →
      p.Z = o.threshold ∧
      p.T = (o.threshold - sz) / (ez - sz) ∧
      p.X = sx + p.T * (ex - sx) ∧
      p.Y = sy + p.T * (ey - sy) ∧
      0 < p.T ∧ p.T < 1) := by
  unfold CalculateIntersection
  by_cases h1 : |ez - sz| < intersectionTolerance
  · simp [h1]
  · by_cases h2 : (o.threshold - sz) / (ez - sz) ≤ 0 ∨ (o.threshold - sz) / (ez - sz) ≥ 1
    · simp [h1, h2]
      intro h
      rcases h2 with h2 | h2
      · exact absurd h (not_lt.mpr h2)
      · exact h2
    · push_neg at h2
      simp [h1, h2]

/-- Witness: the spec scenario — threshold `-9`, a move from
`(10, 0, -5)` to `(20, 0, -10)` intersects at `(18, 0, -9)` with
`t = 4/5`, and the depth is assigned exactly `-9`. -/
theorem calculateIntersection_spec_witness :
    let o : Optimizer := { threshold := -9, strategy := Aggressive }
    let p : IntersectionPoint := { X := 18, Y := 0, Z := -9, T := 4/5 }
    p.Z = o.threshold ∧
    p.T = (o.threshold - (-5)) / ((-10) - (-5)) ∧
    p.X = 10 + p.T * (20 - 10) ∧
    p.Y = 0 + p.T * (0 - 0) ∧
    0 < p.T ∧ p.T < 1 :=
  (calculateIntersection_spec { threshold := -9, strategy := Aggressive }
    10 0 (-5) 20 0 (-10)).2
    { X := 18, Y := 0, Z := -9, T := 4/5 }
    (by norm_num [CalculateIntersection, intersectionTolerance])

/-- The last value carried by a line for a given parameter letter, if the
letter is present at all (`none` when the line omits the parameter). -/
def lastVal (s : String) (line : Line) : Option ℚ :=
  line.codes.foldl (fun acc c => if c.letter = s then some c.value else acc) none

/-- Shifting the accumulator out of the last-value fold. -/
theorem foldl_lastStep_getD (s : String) (cs : List GCode) :
    ∀ (a : Option ℚ) (d : ℚ),
      (cs.foldl (fun acc c => if c.letter = s then some c.value else acc) a).getD d =
        (cs.foldl (fun acc c => if c.letter = s then some c.value else acc) none).getD (a.getD d) := by
  induction cs with
  | nil => intro a d; rfl
  | cons c cs ih =>
    intro a d
    rw [List.foldl_cons, List.foldl_cons, ih, ih (if c.letter = s then some c.value else none)]
    by_cases h : c.letter = s <;> simp [h]

/-- A modal field after the update fold is the last value present for its
letter, defaulting to the field's previous value. -/
theorem updateState_field (g : ModalState → ℚ) (s : String)
    (hg : ∀ st c, g (updateStateStep st c) = if c.letter = s then c.value else g st)
    (cs : List GCode) :
    ∀ st : ModalState,
      g (cs.foldl updateStateStep st) =
        (cs.foldl (fun acc c => if c.letter = s then some c.value else acc) none).getD (g st) := by
  induction cs with
  | nil => intro st; rfl
  | cons c cs ih =>
    intro st
    rw [List.foldl_cons, List.foldl_cons, ih, hg]
    by_cases h : c.letter = s
    · rw [if_pos h, if_pos h, foldl_lastStep_getD s cs (some c.value)]
      simp
    · rw [if_neg h, if_neg h]

/-- One update step only writes `X` for an `X` code. -/
theorem step_X (st : ModalState) (c : GCode) :
    (updateStateStep st c).X = if c.letter = "X" then c.value else st.X := by
  unfold updateStateStep; split_ifs <;> simp_all

/-- One update step only writes `Y` for a `Y` code. -/
theorem step_Y (st : ModalState) (c : GCode) :
    (updateStateStep st c).Y = if c.letter = "Y" then c.value else st.Y := by
  unfold updateStateStep; split_ifs <;> simp_all

/-- One update step only writes `Z` for a `Z` code. -/
theorem step_Z (st : ModalState) (c : GCode) :
    (updateStateStep st c).Z = if c.letter = "Z" then c.value else st.Z := by
  unfold updateStateStep; split_ifs <;> simp_all

/-- One update step only writes `B` for a `B` code. -/
theorem step_B (st : ModalState) (c : GCode) :
    (updateStateStep st c).B = if c.letter = "B" then c.value else st.B := by
  unfold updateStateStep; split_ifs <;> simp_all

/-- One update step only writes `F` for an `F` code. -/
theorem step_F (st : ModalState) (c : GCode) :
    (updateStateStep st c).F = if c.letter = "F" then c.value else st.F := by
  unfold updateStateStep; split_ifs <;> simp_all

/-- C5: the modal-state update overwrites exactly the X/Y/Z/B/F fields
present in the instruction (each to the last value carried for that
letter) and leaves every other field unchanged; consequently a value set
by instruction N-1 survives instruction N whenever N omits that axis. -/
theorem updateState_modal_spec (st : ModalState) (line : Line) :
    ((UpdateState st line).X = (lastVal "X" line).getD st.X) ∧
    ((UpdateState st line).Y = (lastVal "Y" line).getD st.Y) ∧
    ((UpdateState st line).Z = (lastVal "Z" line).getD st.Z) ∧
    ((UpdateState st line).B = (lastVal "B" line).getD st.B) ∧
    ((UpdateState st line).F = (lastVal "F" line).getD st.F) ∧
    (∀ l1 l2 v, lastVal "X" l1 = some v → lastVal "X" l2 = none →
      (UpdateState (UpdateState st l1) l2).X = v) := by
  refine ⟨updateState_field ModalState.X "X" step_X line.codes st,
    updateState_field ModalState.Y "Y" step_Y line.codes st,
    updateState_field ModalState.Z "Z" step_Z line.codes st,
    updateState_field ModalState.B "B" step_B line.codes st,
    updateState_field ModalState.F "F" step_F line.codes st, ?_⟩
  intro l1 l2 v h1 h2
  calc (UpdateState (UpdateState st l1) l2).X
      = (lastVal "X" l2).getD (UpdateState st l1).X :=
        updateState_field ModalState.X "X" step_X l2.codes _
    _ = (UpdateState st l1).X := by rw [h2]; rfl
    _ = (lastVal "X" l1).getD st.X :=
        updateState_field ModalState.X "X" step_X l1.codes st
    _ = v := by rw [h1]; rfl

/-- A `G1 X7` line (sets X). -/
def c5line1 : Line :=
  { codes := [{ letter := "G", value := 1 }, { letter := "X", value := 7 }], comment := "" }

/-- A `G1 Z9` line (omits X). -/
def c5line2 : Line :=
  { codes := [{ letter := "G", value := 1 }, { letter := "Z", value := 9 }], comment := "" }

/-- Witness: after a line setting `X 7` and a following line omitting X,
the modal X is still 7. -/
theorem updateState_modal_spec_witness :
    (UpdateState (UpdateState { X := 1, Y := 2, Z := 3, B := 4, F := 5 } c5line1) c5line2).X = 7 :=
  (updateState_modal_spec { X := 1, Y := 2, Z := 3, B := 4, F := 5 } emptyLine).2.2.2.2.2
    c5line1 c5line2 7 (by decide) (by decide)

/-- C6: the preserve decision is a pure function of classification and
strategy — Shallow is removed under every strategy, Deep and NonCutting
are preserved under every strategy, a crossing move is preserved whole
exactly under Conservative and not preserved whole under Aggressive; and
the pipeline passes every non-G1 line through unchanged, bypassing
classification. -/
theorem shouldPreserve_spec (o : Optimizer) :
    ShouldPreserve o Shallow = false ∧
    ShouldPreserve o Deep = true ∧
    ShouldPreserve o NonCutting = true ∧
    (ShouldPreserve o CrossingEnter = true ↔ o.strategy = Conservative) ∧
    (ShouldPreserve o CrossingLeave = true ↔ o.strategy = Conservative) ∧
    (ShouldPreserve o CrossingEnter = false ↔ o.strategy = Aggressive) ∧
    (∀ st l ls, isG1 l = false →
      (processLines o st (l :: ls)).output = l :: (processLines o (UpdateState st l) ls).output ∧
      (processLines o st (l :: ls)).preserved = (processLines o (UpdateState st l) ls).preserved + 1 ∧
      (processLines o st (l :: ls)).removed = (processLines o (UpdateState st l) ls).removed) := by
  refine ⟨rfl, rfl, rfl, by simp [ShouldPreserve], by simp [ShouldPreserve], ?_, ?_⟩
  · cases h : o.strategy <;> simp [ShouldPreserve, h]
  · intro st l ls h
    simp [processLines, h]

/-- An `M3` machine-control line (not a G1 move). -/
def c6mline : Line := { codes := [{ letter := "M", value := 3 }], comment := "" }

/-- Witness: the pipeline passes an `M3` line through unchanged. -/
theorem shouldPreserve_spec_witness :
    (processLines { threshold := -9, strategy := Aggressive }
        (ResetState 0) [c6mline]).output = [c6mline] := by
  have h := (shouldPreserve_spec { threshold := -9, strategy := Aggressive }).2.2.2.2.2.2
    (ResetState 0) c6mline [] (by decide)
  exact h.1

/-- A left fold of `min` lands in its arguments and bounds them all. -/
theorem foldl_min_facts (l : List ℚ) : ∀ z : ℚ,
    (l.foldl min z = z ∨ l.foldl min z ∈ l) ∧ l.foldl min z ≤ z ∧ ∀ d ∈ l, l.foldl min z ≤ d := by
  induction l with
  | nil => intro z; simp
  | cons x xs ih =>
    intro z
    rw [List.foldl_cons]
    obtain ⟨hmem, hle, hall⟩ := ih (min z x)
    refine ⟨?_, ?_, ?_⟩
    · rcases hmem with h | h
      · rcases le_total z x with hzx | hxz
        · exact Or.inl (by rw [h, min_eq_left hzx])
        · exact Or.inr (by rw [h, min_eq_right hxz]; exact List.mem_cons_self x xs)
      · exact Or.inr (List.mem_cons_of_mem x h)
    · exact le_trans hle (min_le_left z x)
    · intro d hd
      rcases List.mem_cons.mp hd with rfl | hd
      · exact le_trans hle (min_le_right z d)
      · exact hall d hd

/-- The scan loop started on `some a` folds `min` over the observed
depths. -/
theorem scanMinZAux_some (ls : List Line) : ∀ (st : ModalState) (a : ℚ),
    scanMinZAux st (some a) ls = some ((observedDepths st ls).foldl min a) := by
  induction ls with
  | nil => intro st a; rfl
  | cons l ls ih =>
    intro st a
    by_cases h : isMove l
    · simp only [scanMinZAux, observedDepths, h, if_true]
      rw [ih]
      have : (if (UpdateState st l).Z < a then (UpdateState st l).Z else a) = min (UpdateState st l).Z a := by
        rcases lt_or_ge (UpdateState st l).Z a with hlt | hge
        · rw [if_pos hlt, min_eq_left (le_of_lt hlt)]
        · rw [if_neg (not_lt.mpr hge), min_eq_right hge]
      simp [this, min_comm]
    · simp [scanMinZAux, observedDepths, h, ih]

/-- The scan yields `none` exactly when the accumulator is empty and no
line is a G0/G1 move. -/
theorem scanMinZAux_none_iff (ls : List Line) : ∀ (st : ModalState) (acc : Option ℚ),
    (scanMinZAux st acc ls = none ↔ acc = none ∧ ∀ l ∈ ls, isMove l = false) := by
  induction ls with
  | nil => intro st acc; simp [scanMinZAux]
  | cons l ls ih =>
    intro st acc
    by_cases h : isMove l
    · cases acc <;>
        simp only [scanMinZAux, h, if_true] <;>
        rw [ih] <;> simp [h]
    · simp only [scanMinZAux, h, if_false]
      rw [ih]
      simp [h]

/-- A successful scan returns an observed depth that bounds all observed
depths from below. -/
theorem scanMinZ_some_min (maxZ : ℚ) (lines : List Line) (mz : ℚ)
    (h : ScanMinZ maxZ lines = some mz) :
    mz ∈ observedDepths (ResetState maxZ) lines ∧
      ∀ d ∈ observedDepths (ResetState maxZ) lines, mz ≤ d := by
  suffices H : ∀ (ls : List Line) (st : ModalState) (m : ℚ),
      scanMinZAux st none ls = some m →
      m ∈ observedDepths st ls ∧ ∀ d ∈ observedDepths st ls, m ≤ d from
    H lines (ResetState maxZ) mz h
  intro ls
  induction ls with
  | nil => intro st m hh; simp [scanMinZAux] at hh
  | cons l ls ih =>
    intro st m hh
    by_cases hm : isMove l
    · simp only [scanMinZAux, hm, if_true] at hh
      rw [scanMinZAux_some] at hh
      have hmv := Option.some.inj hh
      obtain ⟨hmem, hle, hall⟩ := foldl_min_facts (observedDepths (UpdateState st l) ls) (UpdateState st l).Z
      constructor
      · simp only [observedDepths, hm]
        rcases hmem with h1 | h1
        · simp [← hmv, h1]
        · simp [← hmv, h1]
      · intro d hd
        simp only [observedDepths, hm] at hd
        simp at hd
        rcases hd with rfl | hd
        · rw [← hmv]; exact hle
        · rw [← hmv]; exact hall d hd
    · simp only [scanMinZAux, hm] at hh
      have := ih (UpdateState st l) m (by simpa using hh)
      simp only [observedDepths, hm]
      simpa using this

/-- C4: threshold resolution errors exactly when the stream has no motion
instruction; otherwise the threshold used by pass 2 equals the minimum
modal depth observed after updating state at each motion instruction,
plus the caller-supplied allowance. -/
theorem scanMinZ_threshold_spec (maxZ allowance : ℚ) (strategy : OptimizationStrategy)
    (lines : List Line) :
    (optimizeGCodeFile maxZ allowance strategy lines = none ↔
      ∀ l ∈ lines, isMove l = false) ∧
    (∀ opt res, optimizeGCodeFile maxZ allowance strategy lines = some (opt, res) →
      ∃ m, ScanMinZ maxZ lines = some m ∧
        m ∈ observedDepths (ResetState maxZ) lines ∧
        (∀ d ∈ observedDepths (ResetState maxZ) lines, m ≤ d) ∧
        opt.threshold = m + allowance) := by
  have key : ScanMinZ maxZ lines = none ↔ ∀ l ∈ lines, isMove l = false := by
    unfold ScanMinZ
    rw [scanMinZAux_none_iff]
    simp
  constructor
  · constructor
    · intro hn
      apply key.mp
      unfold optimizeGCodeFile at hn
      cases h : ScanMinZ maxZ lines with
      | none => rfl
      | some m => rw [h] at hn; simp at hn
    · intro hall
      unfold optimizeGCodeFile
      rw [key.mpr hall]
  · intro opt res hsome
    unfold optimizeGCodeFile at hsome
    cases h : ScanMinZ maxZ lines with
    | none => rw [h] at hsome; simp at hsome
    | some m =>
      rw [h] at hsome
      simp only [Option.some.injEq, Prod.mk.injEq] at hsome
      obtain ⟨ho, _⟩ := hsome
      obtain ⟨hmem, hmin⟩ := scanMinZ_some_min maxZ lines m h
      exact ⟨m, rfl, hmem, hmin, by rw [← ho]; rfl⟩

/-- A `G1 Z-10` line. -/
def c4line : Line :=
  { codes := [{ letter := "G", value := 1 }, { letter := "Z", value := -10 }], comment := "" }

/-- The pipeline on a one-line program: minimum Z is `-10`, the threshold
is `-9`, and the crossing move is preserved under Conservative. -/
theorem c4eval :
    optimizeGCodeFile 0 1 Conservative [c4line] =
      some ({ threshold := -9, strategy := Conservative },
        { output := [c4line], processed := 1, removed := 0, preserved := 1, splits := 0 }) := by
  simp [optimizeGCodeFile, ScanMinZ, scanMinZAux, observedDepths, UpdateState,
    updateStateStep, isMove, isG1, processLines, ClassifyMove, ShouldPreserve,
    NewOptimizer, ResetState, c4line]
  norm_num

/-- Witness: on the one-line program, the scan returns `-10` as the
minimum observed depth and the optimizer threshold is `-10 + 1`. -/
theorem scanMinZ_threshold_spec_witness :
    ∃ m, ScanMinZ 0 [c4line] = some m ∧
      m ∈ observedDepths (ResetState 0) [c4line] ∧
      (∀ d ∈ observedDepths (ResetState 0) [c4line], m ≤ d) ∧
      (({ threshold := -9, strategy := Conservative } : Optimizer)).threshold = m + 1 :=
  (scanMinZ_threshold_spec 0 1 Conservative [c4line]).2
    { threshold := -9, strategy := Conservative }
    { output := [c4line], processed := 1, removed := 0, preserved := 1, splits := 0 }
    c4eval

/-- A `G1 X10 Z-5 F100` line (shallow under threshold `-9`). -/
def c1line1 : Line :=
  { codes := [{ letter := "G", value := 1 }, { letter := "X", value := 10 },
      { letter := "Z", value := -5 }, { letter := "F", value := 100 }], comment := "" }

/-- A `G1 X20 Z-10` line (crosses threshold `-9` from `-5`). -/
def c1line2 : Line :=
  { codes := [{ letter := "G", value := 1 }, { letter := "X", value := 20 },
      { letter := "Z", value := -10 }], comment := "" }

/-- C1: evaluation of the pipeline at the aggressive-crossing scenario
(threshold `-9`, a G1 move from depth `-5` to `-10`, strategy Aggressive).
The move classifies as CrossingEnter, yet the pipeline emits no
replacement instructions at all: the crossing move is removed whole, the
removed counter (not the split counter) is incremented, and the split
counter stays 0.  `SplitMove` is never invoked by the
`optimizeGCodeFile` loop. -/
theorem aggressive_crossing_removed_not_split :
    ClassifyMove { threshold := -9, strategy := Aggressive } (-5) (-10) = CrossingEnter ∧
    optimizeGCodeFile 0 1 Aggressive [c1line1, c1line2] =
      some ({ threshold := -9, strategy := Aggressive },
        { output := [], processed := 2, removed := 2, preserved := 0, splits := 0 }) := by
  constructor
  · simp [ClassifyMove]
    norm_num
  · simp [optimizeGCodeFile, ScanMinZ, scanMinZAux, UpdateState,
      updateStateStep, isMove, isG1, processLines, ClassifyMove, ShouldPreserve,
      NewOptimizer, ResetState, c1line1, c1line2]
    norm_num

/-- C7: for a shallow G1 move, the Safe strategy filters exactly when no
non-depth axis (X, Y, A or B) is present, while AllAxes and Aggressive
filter purely on depth regardless of other axes. -/
theorem shouldFilterMove_strategy_spec (cmd : Command) (allowance : ℚ) (meta : Metadata) (z : ℚ)
    (hG : cmd.Letter = "G") (hV : cmd.Value = 1)
    (hz : cmd.Params.lookup "Z" = some z)
    (hshallow : IsShallowDepth meta z allowance = true) :
    (ShouldFilterMove cmd allowance meta StrategySafe = true ↔
       ∀ p ∈ cmd.Params, p.1 ≠ "X" ∧ p.1 ≠ "Y" ∧ p.1 ≠ "A" ∧ p.1 ≠ "B") ∧
    ShouldFilterMove cmd allowance meta StrategyAllAxes = true ∧
    ShouldFilterMove cmd allowance meta StrategyAggressive = true := by
  have hap : ShouldAlwaysPreserve cmd = false := by
    unfold ShouldAlwaysPreserve IsRapidMove IsMachineCode IsComment
    simp [hG, hV]
  have hcut : IsCuttingMove cmd = true := by
    unfold IsCuttingMove
    cases hp : cmd.Params with
    | nil => rw [hp] at hz; simp [List.lookup] at hz
    | cons a as => simp [hG, hV, hp]
  unfold ShouldFilterMove
  simp [hap, hcut, hz, ShouldFilterByDepth, hshallow, applyStrategy, isMultiAxis]
  constructor <;> intro h a b hab <;> have := h a b hab <;> tauto

/-- A shallow `G1 X5 Z-0.5` command (carries a horizontal axis). -/
def c7cmd : Command :=
  { Letter := "G", Value := 1, Params := [("X", 5), ("Z", -1/2)], Comment := "" }

/-- Metadata with the surface Z-reference (reference depth 0). -/
def c7meta : Metadata := { MinZ := 0, MaxZ := 0, Is4Axis := false, ZRef := ZRefSurface }

/-- Witness: the shallow multi-axis move is preserved under Safe and
removed under AllAxes. -/
theorem shouldFilterMove_strategy_spec_witness :
    ShouldFilterMove c7cmd 1 c7meta StrategySafe = false ∧
    ShouldFilterMove c7cmd 1 c7meta StrategyAllAxes = true := by
  have h := shouldFilterMove_strategy_spec c7cmd 1 c7meta (-1/2) rfl rfl rfl
    (by norm_num [IsShallowDepth, GetZReference, c7meta])
  refine ⟨?_, h.2.1⟩
  cases hsf : ShouldFilterMove c7cmd 1 c7meta StrategySafe
  · rfl
  · exfalso
    have hx := (h.1.mp hsf) ("X", 5) (by simp [c7cmd])
    simp at hx

/-- C8: the Split multi-axis strategy is behaviorally identical to Safe -
for every command the filtering decision coincides (no single-axis
decomposition is performed). -/
theorem splitStrategy_behaves_as_safe (cmd : Command) (allowance : ℚ) (meta : Metadata) :
    ShouldFilterMove cmd allowance meta StrategySplit =
      ShouldFilterMove cmd allowance meta StrategySafe := rfl

/-- The feed-rate values carried by a line, in order. -/
def feedCodes (l : Line) : List ℚ :=
  l.codes.filterMap (fun c => if c.letter = "F" then some c.value else none)

/-- C9: when a crossing G1 move with positive feed rate is split, every
produced instruction carries exactly the source instruction's feed rate -
for CrossingEnter both output lines, for CrossingLeave the single kept
line.  The feed rate is never recalculated or scaled. -/
theorem splitMove_feedrate_spec (line : Line) (intersection : IntersectionPoint)
    (startX startY startZ startB f : ℚ)
    (hg : extractGValue line = 1)
    (hf : lastCoord line "F" 0 = f) (hfpos : 0 < f) :
    (∀ l1 l2, SplitMove line intersection CrossingEnter startX startY startZ startB = some (l1, l2) →
      feedCodes l1 = [f] ∧ feedCodes l2 = [f]) ∧
    (∀ l1 l2, SplitMove line intersection CrossingLeave startX startY startZ startB = some (l1, l2) →
      feedCodes l1 = [f]) := by
  unfold SplitMove
  rw [hg, hf]
  simp only [ne_eq, one_ne_zero, not_false_eq_true, not_true_eq_false, and_false, if_false,
    false_and, ite_false]
  constructor
  · intro l1 l2 hsome
    simp at hsome
    obtain ⟨h1, h2⟩ := hsome
    rw [← h1, ← h2]
    cases hX : hasLetter line "X" <;> cases hY : hasLetter line "Y" <;>
      cases hZ : hasLetter line "Z" <;> cases hB : hasLetter line "B" <;>
      simp [feedCodes, hX, hY, hZ, hB, hfpos]
  · intro l1 l2 hsome
    simp at hsome
    obtain ⟨h1, h2⟩ := hsome
    rw [← h1]
    cases hX : hasLetter line "X" <;> cases hY : hasLetter line "Y" <;>
      cases hZ : hasLetter line "Z" <;> cases hB : hasLetter line "B" <;>
      simp [feedCodes, hX, hY, hZ, hB, hfpos]

/-- A `G1 X20 Z-10 F100` source line for the split witness. -/
def c9line : Line :=
  { codes := [{ letter := "G", value := 1 }, { letter := "X", value := 20 },
      { letter := "Z", value := -10 }, { letter := "F", value := 100 }], comment := "" }

/-- The first replacement line produced for the witness split. -/
def c9l1 : Line :=
  { codes := [{ letter := "G", value := 1 }, { letter := "X", value := round4 18 },
      { letter := "Z", value := round4 (-9) }, { letter := "F", value := 100 }], comment := "" }

/-- The second replacement line produced for the witness split. -/
def c9l2 : Line :=
  { codes := [{ letter := "G", value := 1 }, { letter := "X", value := 20 },
      { letter := "Z", value := -10 }, { letter := "F", value := 100 }], comment := "" }

/-- Evaluation of `SplitMove` at the witness inputs. -/
theorem c9someEq :
    SplitMove c9line { X := 18, Y := 0, Z := -9, T := 4/5 } CrossingEnter 10 0 (-5) 0 =
      some (c9l1, c9l2) := by
  simp [SplitMove, c9line, c9l1, c9l2, extractGValue, lastCoord, hasLetter]

/-- Witness: both replacement lines of the concrete split carry the
source feed rate 100. -/
theorem splitMove_feedrate_spec_witness : feedCodes c9l1 = [100] ∧ feedCodes c9l2 = [100] :=
  (splitMove_feedrate_spec c9line { X := 18, Y := 0, Z := -9, T := 4/5 } 10 0 (-5) 0 100
    rfl rfl (by norm_num)).1 c9l1 c9l2 c9someEq

/-- The code point of `Char.ofNat` below the surrogate range. -/
theorem charOfNat_toNat (n : ℕ) (h : n < 55296) : (Char.ofNat n).toNat = n := by
  have hv : n.isValidChar := Or.inl h
  simp [Char.ofNat, hv, Char.ofNatAux, Char.toNat, UInt32.toNat, UInt32.ofNatCore]

/-- Lowercasing an ASCII capital adds 32 to the code point. -/
theorem goToLowerChar_toNat (c : Char) (h1 : 65 ≤ c.toNat) (h2 : c.toNat ≤ 90) :
    (goToLowerChar c).toNat = c.toNat + 32 := by
  unfold goToLowerChar
  rw [if_pos ⟨h1, h2⟩, charOfNat_toNat (c.toNat + 32) (by omega)]

/-- Lowercasing a character is idempotent. -/
theorem goToLowerChar_idem (c : Char) : goToLowerChar (goToLowerChar c) = goToLowerChar c := by
  by_cases h : 65 ≤ c.toNat ∧ c.toNat ≤ 90
  · have ht := goToLowerChar_toNat c h.1 h.2
    have hn : ¬(65 ≤ (goToLowerChar c).toNat ∧ (goToLowerChar c).toNat ≤ 90) := by
      rw [ht]; omega
    calc goToLowerChar (goToLowerChar c)
        = if 65 ≤ (goToLowerChar c).toNat ∧ (goToLowerChar c).toNat ≤ 90 then
            Char.ofNat ((goToLowerChar c).toNat + 32) else goToLowerChar c := rfl
      _ = goToLowerChar c := if_neg hn
  · simp only [goToLowerChar, if_neg h]

/-- Lowercasing neither creates nor destroys white space. -/
theorem goIsSpace_goToLowerChar (c : Char) : goIsSpace (goToLowerChar c) = goIsSpace c := by
  by_cases h : 65 ≤ c.toNat ∧ c.toNat ≤ 90
  · have ht := goToLowerChar_toNat c h.1 h.2
    simp only [goIsSpace, ht]
    rw [decide_eq_decide]
    omega
  · simp only [goToLowerChar, if_neg h]

/-- A dropWhile result is empty or starts with an element failing the
predicate. -/
theorem dropWhile_head_cases {α : Type} (p : α → Bool) (l : List α) :
    l.dropWhile p = [] ∨ ∃ c t, l.dropWhile p = c :: t ∧ p c = false := by
  induction l with
  | nil => left; rfl
  | cons x xs ih =>
    by_cases h : p x
    · simpa [List.dropWhile, h] using ih
    · right; exact ⟨x, xs, by simp [List.dropWhile, h], by simp [h]⟩

/-- dropWhile keeps the final element when it fails the predicate. -/
theorem dropWhile_append_singleton {α : Type} (p : α → Bool) (c : α) (hc : p c = false)
    (xs : List α) : ∃ u, (xs ++ [c]).dropWhile p = u ++ [c] := by
  induction xs with
  | nil => exact ⟨[], by simp [List.dropWhile, hc]⟩
  | cons x xs ih =>
    by_cases h : p x
    · obtain ⟨u, hu⟩ := ih
      exact ⟨u, by simp [List.dropWhile, h, hu]⟩
    · exact ⟨x :: xs, by simp [List.dropWhile, h]⟩

/-- dropWhile commutes with mapping a predicate-invariant function. -/
theorem dropWhile_map_eq {α : Type} (f : α → α) (p : α → Bool)
    (hp : ∀ a, p (f a) = p a) (l : List α) :
    (l.map f).dropWhile p = (l.dropWhile p).map f := by
  induction l with
  | nil => rfl
  | cons x xs ih => by_cases h : p x <;> simp [List.dropWhile, hp, h, ih]

/-- Dropping from the left is a no-op after trimming both ends. -/
theorem trim_aux_left {α : Type} (p : α → Bool) (l : List α) :
    ((l.dropWhile p).reverse.dropWhile p).reverse.dropWhile p =
      ((l.dropWhile p).reverse.dropWhile p).reverse := by
  rcases dropWhile_head_cases p l with h | ⟨c, t, h, hc⟩
  · rw [h]; simp
  · rw [h]
    obtain ⟨u, hu⟩ := dropWhile_append_singleton p c hc t.reverse
    rw [List.reverse_cons, hu, List.reverse_append]
    simp [List.dropWhile, hc]

/-- Trimming white space is idempotent. -/
theorem goTrimSpace_idem (s : List Char) : goTrimSpace (goTrimSpace s) = goTrimSpace s := by
  unfold goTrimSpace
  rw [trim_aux_left goIsSpace s, List.reverse_reverse, List.dropWhile_idempotent]

/-- Trimming commutes with lowercasing. -/
theorem goTrimSpace_goToLower (s : List Char) :
    goTrimSpace (goToLower s) = goToLower (goTrimSpace s) := by
  unfold goTrimSpace goToLower
  rw [dropWhile_map_eq goToLowerChar goIsSpace goIsSpace_goToLowerChar,
    ← List.map_reverse, dropWhile_map_eq goToLowerChar goIsSpace goIsSpace_goToLowerChar,
    ← List.map_reverse]

/-- Lowercasing a string is idempotent. -/
theorem goToLower_idem (s : List Char) : goToLower (goToLower s) = goToLower s := by
  unfold goToLower
  rw [List.map_map]
  exact List.map_congr_left fun a _ => goToLowerChar_idem a

/-- The lowercased-trimmed normal form is a fixed point of
normalization. -/
theorem goNormalize_idem (s : List Char) :
    goToLower (goTrimSpace (goToLower (goTrimSpace s))) = goToLower (goTrimSpace s) := by
  rw [goTrimSpace_goToLower, goTrimSpace_idem, goToLower_idem]

/-- C10: strategy parsing is insensitive to letter case and surrounding
white space — parsing any string gives the same result as parsing its
lowercased, trimmed form — and every string whose normal form matches no
known variant yields an error paired with the Safe strategy. -/
theorem parseFilterStrategy_normalize_spec (s : List Char) :
    ParseFilterStrategy s = ParseFilterStrategy (goToLower (goTrimSpace s)) ∧
    (goToLower (goTrimSpace s) ∉
        ["safe".toList, "all-axes".toList, "split".toList, "aggressive".toList] →
      ParseFilterStrategy s = (StrategySafe, true)) := by
  constructor
  · unfold ParseFilterStrategy
    rw [goNormalize_idem]
  · intro h
    simp only [List.mem_cons, List.not_mem_nil, or_false, not_or] at h
    obtain ⟨h1, h2, h3, h4⟩ := h
    unfold ParseFilterStrategy
    rw [if_neg h1, if_neg h2, if_neg h3, if_neg h4]

/-- Witness: a string matching no variant parses to Safe with an error. -/
theorem parseFilterStrategy_normalize_spec_witness :
    ParseFilterStrategy " BOGUS ".toList = (StrategySafe, true) :=
  (parseFilterStrategy_normalize_spec " BOGUS ".toList).2 (by decide)
